import Mathlib

/-
Verification of the TCP test server (src/index.js) against its design
specification.

The embedding is shallow: JS strings are modelled as lists of characters
(`Str`), the JS value `undefined` as `Option.none`, and the effectful
executor as a function from a directive to the list of observable events
it performs on the session's socket.  Definitions are transcribed from the
source; a handful of definitions formalise sentences of the specification
for comparison and say so in their doc comment.
-/

set_option maxHeartbeats 1000000
set_option maxRecDepth 8192

namespace TestSrv

/-- JS strings are modelled as lists of characters. -/
abbrev Str := List Char

/-- Character list of a Lean string literal (used to write concrete payloads). -/
def chars (s : String) : Str := s.toList

/-- Does `needle` occur as an initial segment of `hay`? -/
def isSubAt : Str → Str → Bool
  | [], _ => true
  | _ :: _, [] => false
  | a :: ns, b :: hs => a == b && isSubAt ns hs

/-- JS `hay.indexOf(needle)`: index of the first occurrence of `needle` in
`hay`, `none` when there is no occurrence (JS returns `-1` there). -/
def idxOf? (needle : Str) : Str → Option Nat
  | [] => if needle = [] then some 0 else none
  | b :: hs => if isSubAt needle (b :: hs) then some 0 else (idxOf? needle hs).map (fun k => k + 1)

/-- JS `hay.includes(needle)`: true exactly when `indexOf` finds an occurrence. -/
def jsIncludes (hay needle : Str) : Bool := (idxOf? needle hay).isSome

/-- JS `s.slice(start, stop)` for non-negative arguments: the characters of
positions `start` (inclusive) to `stop` (exclusive), clamped to the string;
empty whenever `stop ≤ start`. -/
def jsSlice (s : Str) (start stop : Nat) : Str := (s.take stop).drop start

/-- JS `s.split(sep)` for a one-character separator `sep`: the (always
non-empty) list of the chunks of `s` between occurrences of `sep`;
`"".split(sep)` is `[""]`, and adjacent separators produce empty chunks. -/
def splitOnCh (c : Char) (s : Str) : List Str :=
  match s with
  | [] => [[]]
  | a :: rest =>
      let r := splitOnCh c rest
      if a = c then [] :: r else (a :: r.headI) :: r.tail

/-- One parsed action, as built by `parseRequest`: the source pushes
objects `\x7bcmd: item.split('=')[0], param: item.split('=')[1]\x7d`, where
`param` is the JS value `undefined` (here `none`) when the token has no `=`. -/
structure Action where
  cmd : Str
  param : Option Str
deriving DecidableEq

/-- Source constant `ACT_SIGN_OPEN = 'ACT['`. -/
def ACT_SIGN_OPEN : Str := chars ("ACT[")

/-- Source constant `ACT_SIGN_CLOSE = ']'`. -/
def ACT_SIGN_CLOSE : Str := chars ("]")

/-- Source constant `ACT_SEP = ','`; a one-character string in the source,
modelled as the character so that splitting uses `splitOnCh`. -/
def ACT_SEP : Char := ','

/-- Per-token parsing step of `parseRequest`:
`\x7bcmd: item.split('=')[0], param: item.split('=')[1]\x7d`.  `split` on a
token always yields a non-empty list, so index `[0]` is its first element
(`headI`); index `[1]` is `undefined` (`none`) when fewer than two chunks. -/
def parseToken (item : Str) : Action :=
  { cmd := (splitOnCh '=' item).headI, param := (splitOnCh '=' item)[1]? }

/-- The action-list text computed by `parseRequest`:
`request.slice(request.indexOf(ACT_SIGN_OPEN) + ACT_SIGN_OPEN.length, request.indexOf(ACT_SIGN_CLOSE))`.
The `getD 0` defaults are never taken: the source evaluates this expression
only after `includes` has confirmed both markers occur (JS `indexOf` is `-1`
exactly when `includes` is false). -/
def actText (request : Str) : Str :=
  jsSlice request ((idxOf? ACT_SIGN_OPEN request).getD 0 + ACT_SIGN_OPEN.length)
    ((idxOf? ACT_SIGN_CLOSE request).getD 0)

/-- Source function `parseRequest(request)`.  Returns `undefined` (`none`)
when the string is empty (falsy) or one of the markers is missing; an empty
action list when the text between the markers is empty; otherwise the comma
chunks of that text, each parsed by `parseToken`. -/
def parseRequest (request : Str) : Option (List Action) :=
  if request.isEmpty || !jsIncludes request ACT_SIGN_OPEN || !jsIncludes request ACT_SIGN_CLOSE then
    none
  else if (actText request).isEmpty then
    some []
  else
    some ((splitOnCh ACT_SEP (actText request)).map parseToken)

/-- Formalisation of claim C1's words, NOT of the source: the action-list
text is the substring between the end of the first occurrence of `ACT[` and
the first occurrence of `]` that comes after that opening marker (`none`
when either marker is missing in that order). -/
def claimActText (request : Str) : Option Str :=
  match idxOf? ACT_SIGN_OPEN request with
  | none => none
  | some i =>
      match idxOf? ACT_SIGN_CLOSE (request.drop (i + ACT_SIGN_OPEN.length)) with
      | none => none
      | some k => some ((request.drop (i + ACT_SIGN_OPEN.length)).take k)

/-- Observable events of `execActions` on a session's socket, in order. -/
inductive Event where
  | logNoActions : Event
  | logUnknown (cmd : Str) : Event
  | endSocket : Event
  | logExec (cmd : Str) (param : Option Str) : Event
  | invoke (cmd : Str) (param : Option Str) : Event
deriving DecidableEq

/-- How the async function `execActions` finished: `done` models a normal
return (resolved promise), `raised` a rejected promise escaping to the
caller (the source never catches it: both call sites in the connection
handler invoke `execActions` without `await` or `.catch`). -/
inductive Outcome where
  | done : Outcome
  | raised : Outcome
deriving DecidableEq

/-- The five own keys of the source's `METHOD_MAP` object literal. -/
def knownCmds : List Str :=
  [chars ("CLOSE"), chars ("DATA"), chars ("SEND"), chars ("WAIT"), chars ("SHUT")]

/-- Property names `METHOD_MAP` inherits from `Object.prototype`.  JS
property access `METHOD_MAP[cmd]` walks the prototype chain of the object
literal, and every one of these inherited values (functions, and the
prototype object itself for `__proto__`) is truthy. -/
def objectProtoProps : List Str :=
  [chars ("constructor"), chars ("hasOwnProperty"), chars ("isPrototypeOf"),
   chars ("propertyIsEnumerable"), chars ("toLocaleString"), chars ("toString"),
   chars ("valueOf"), chars ("__defineGetter__"), chars ("__defineSetter__"),
   chars ("__lookupGetter__"), chars ("__lookupSetter__"), chars ("__proto__")]

/-- Truthiness of the JS lookup `METHOD_MAP[item.cmd]` guarding the
unknown-action branch of `execActions`: truthy for the five own keys and
for every property inherited from `Object.prototype`. -/
def methodMapTruthy (cmd : Str) : Bool :=
  knownCmds.contains cmd || objectProtoProps.contains cmd

/-- The `for (const item of actions)` loop of `execActions`, from the
`i`-th action on.  `ok j` tells whether awaiting the `j`-th action's
handler resolves (`true`) or rejects (`false`); the handlers' own socket
effects are abstracted as the `invoke` event.  An unknown action logs an
error, calls `socket.end()` and returns normally; a rejected handler ends
the run with `Outcome.raised` and no further iteration. -/
def execFrom (ok : Nat → Bool) (i : Nat) : List Action → List Event × Outcome
  | [] => ([], Outcome.done)
  | a :: rest =>
      if !methodMapTruthy a.cmd then
        ([Event.logUnknown a.cmd, Event.endSocket], Outcome.done)
      else if ok i then
        let r := execFrom ok (i + 1) rest
        (Event.logExec a.cmd a.param :: Event.invoke a.cmd a.param :: r.1, r.2)
      else
        ([Event.logExec a.cmd a.param, Event.invoke a.cmd a.param], Outcome.raised)

/-- Source function `execActions(socket, actions)`: an empty list only logs
and returns, otherwise the loop `execFrom` runs from index 0. -/
def execActions (ok : Nat → Bool) (actions : List Action) : List Event × Outcome :=
  if actions.length = 0 then ([Event.logNoActions], Outcome.done)
  else execFrom ok 0 actions

/-- The events a directive's own handlers contribute: for each action in
order, the `Executing action` log line followed by the handler invocation,
and nothing else. -/
def handlerTrace : List Action → List Event
  | [] => []
  | a :: rest => Event.logExec a.cmd a.param :: Event.invoke a.cmd a.param :: handlerTrace rest

/-- Hex digit test of the `unescape` algorithm (ECMA-262 B.2.1.2):
`0-9`, `A-F`, `a-f`. -/
def isHexDigit (c : Char) : Bool :=
  ('0' ≤ c && c ≤ '9') || ('A' ≤ c && c ≤ 'F') || ('a' ≤ c && c ≤ 'f')

/-- Numeric value of a hex digit (meaningful when `isHexDigit`). -/
def hexVal (c : Char) : Nat :=
  if '0' ≤ c && c ≤ '9' then c.toNat - '0'.toNat
  else if 'A' ≤ c && c ≤ 'F' then c.toNat - 'A'.toNat + 10
  else c.toNat - 'a'.toNat + 10

/-- Fuel-indexed scanner implementing the JS global `unescape` called by
`act_send`, per ECMA-262 B.2.1.2: `%uXXXX` (four hex digits) becomes the
code unit `XXXX`, otherwise `%XX` (two hex digits) becomes the code unit
`XX`, otherwise characters are copied unchanged.  Every step consumes at
least one character, so any `fuel ≥ s.length` computes the full result
(`unescapeJS` supplies `s.length`); the `0, s => s` equation is never
reached from such a call.  A `%uXXXX` that would produce a lone surrogate
is not representable as a `Char` and is copied literally in this model; no
input considered in this development reaches that case. -/
def unescapeFuel : Nat → Str → Str
  | 0, s => s
  | _ + 1, [] => []
  | fuel + 1, c :: rest =>
      if c = '%' then
        match rest with
        | [] => c :: unescapeFuel fuel rest
        | r1 :: rtail =>
            if r1 = 'u' then
              match rtail with
              | h1 :: h2 :: h3 :: h4 :: rest2 =>
                  if isHexDigit h1 && isHexDigit h2 && isHexDigit h3 && isHexDigit h4 then
                    let n := ((hexVal h1 * 16 + hexVal h2) * 16 + hexVal h3) * 16 + hexVal h4
                    if n < 0xD800 || 0xDFFF < n then Char.ofNat n :: unescapeFuel fuel rest2
                    else c :: unescapeFuel fuel rest
                  else c :: unescapeFuel fuel rest
              | _ => c :: unescapeFuel fuel rest
            else
              match rtail with
              | h2 :: rest2 =>
                  if isHexDigit r1 && isHexDigit h2 then
                    Char.ofNat (hexVal r1 * 16 + hexVal h2) :: unescapeFuel fuel rest2
                  else c :: unescapeFuel fuel rest
              | [] => c :: unescapeFuel fuel rest
      else c :: unescapeFuel fuel rest

/-- The JS global `unescape` (see `unescapeFuel`). -/
def unescapeJS (s : Str) : Str := unescapeFuel s.length s

/-- The chunk `act_send` hands to `socket.write`: the source expression
`data ? unescape(data) : data`.  A present non-empty parameter is
unescaped; the empty string (falsy) and `undefined` (`none`) are passed to
`write` unchanged — in particular an absent parameter makes `act_send`
call `socket.write(undefined, cb)`, it does not skip the write. -/
def act_send_chunk : Option Str → Option Str
  | none => none
  | some d => if d.isEmpty then some d else some (unescapeJS d)

/-- UTF-8 encoding of one character (scalar value), as `socket.write`
encodes a JS string with its default encoding. -/
def utf8EncodeChar (c : Char) : List Nat :=
  let n := c.toNat
  if n < 0x80 then [n]
  else if n < 0x800 then [0xC0 + n / 0x40, 0x80 + n % 0x40]
  else if n < 0x10000 then [0xE0 + n / 0x1000, 0x80 + n / 0x40 % 0x40, 0x80 + n % 0x40]
  else [0xF0 + n / 0x40000, 0x80 + n / 0x1000 % 0x40, 0x80 + n / 0x40 % 0x40, 0x80 + n % 0x40]

/-- UTF-8 encoding of a string. -/
def utf8Encode : Str → List Nat
  | [] => []
  | c :: s => utf8EncodeChar c ++ utf8Encode s

/-- The bytes `act_send` puts on the wire for a present parameter `d`:
the chunk `data ? unescape(data) : data`, UTF-8 encoded by `socket.write`. -/
def sendBytes (d : Str) : List Nat :=
  match act_send_chunk (some d) with
  | none => []
  | some s => utf8Encode s

/-- Upper-case hex digit of a nibble (used to build percent-encoded inputs). -/
def hexDigitUpper (n : Nat) : Char :=
  if n < 10 then Char.ofNat ('0'.toNat + n) else Char.ofNat ('A'.toNat + n - 10)

/-- Percent-encoding of a byte sequence: each byte as `%XX`. -/
def percentEnc : List Nat → Str
  | [] => []
  | b :: rest => '%' :: hexDigitUpper (b / 16) :: hexDigitUpper (b % 16) :: percentEnc rest

/-- UTF-8 encoding of the character `U+00bb` for a byte value `b < 256`:
one byte below `0x80`, two bytes above. -/
def utf8ByteEnc (b : Nat) : List Nat :=
  if b < 0x80 then [b] else [0xC0 + b / 0x40, 0x80 + b % 0x40]

/-- Concatenation of `utf8ByteEnc` over a byte sequence. -/
def bytesUtf8 : List Nat → List Nat
  | [] => []
  | b :: rest => utf8ByteEnc b ++ bytesUtf8 rest

/-- The `socket.on('data')` callback of the connection handler, at the
granularity of which directive (if any) gets executed: when the session's
`dataGot` flag is already set the payload is ignored; otherwise the flag is
set (before parsing), and a well-formed payload's directive is executed
while a malformed one logs and ends the socket, executing nothing. -/
def handleData (dataGot : Bool) (payload : Str) : Bool × Option (List Action) :=
  if dataGot then (dataGot, none)
  else
    match parseRequest payload with
    | none => (true, none)
    | some actions => (true, some actions)

/-- Directives executed from a sequence of inbound payloads, starting from
a given `dataGot` flag. -/
def inboundFrom (dataGot : Bool) : List Str → List (List Action)
  | [] => []
  | p :: rest =>
      let r := handleData dataGot p
      r.2.toList ++ inboundFrom r.1 rest

/-- Directives executed from inbound data on a fresh session (`dataGot`
starts falsy: the field is initially undefined on the socket object). -/
def inboundExecuted (payloads : List Str) : List (List Action) :=
  inboundFrom false payloads

/-- The connection handler's directive dispatch, from the source:
`if (globActions) execActions(socket, globActions); else socket.on('data', ...)`.
With a global directive configured it is executed once at connect time and
no data handler is ever installed, so inbound payloads contribute nothing;
without one, directives come from `inboundExecuted`. -/
def sessionExecuted (globActions : Option (List Action)) (payloads : List Str) :
    List (List Action) :=
  match globActions with
  | some g => [g]
  | none => inboundExecuted payloads

/-! Helper lemmas about the embedded string primitives. -/

theorem isSubAt_nil_iff (needle : Str) : isSubAt needle [] = true ↔ needle = [] := by
  cases needle <;> simp [isSubAt]

theorem idxOf?_eq_some_iff (needle : Str) : ∀ (hay : Str) (n : Nat),
    idxOf? needle hay = some n ↔
      (isSubAt needle (hay.drop n) = true ∧ ∀ m, m < n → isSubAt needle (hay.drop m) = false) := by
  intro hay
  induction hay with
  | nil =>
      intro n
      by_cases hne : needle = []
      · subst hne
        simp only [idxOf?, if_pos rfl, List.drop_nil, isSubAt, true_and]
        constructor
        · intro h
          have hn : n = 0 := by
            have := Option.some.inj h
            omega
          subst hn
          intro m hm
          omega
        · intro h
          rcases Nat.eq_zero_or_pos n with hz | hp
          · subst hz; rfl
          · have := h 0 hp
            simp at this
      · constructor
        · intro h
          simp [idxOf?, hne] at h
        · rintro ⟨h1, _⟩
          rw [List.drop_nil] at h1
          exact absurd ((isSubAt_nil_iff needle).mp h1) hne
  | cons b hs ih =>
      intro n
      cases h0 : isSubAt needle (b :: hs) with
      | true =>
          constructor
          · intro h
            have hn : n = 0 := by
              simp only [idxOf?, h0, if_pos rfl] at h
              exact (Option.some.inj h).symm
            subst hn
            exact ⟨by simpa using h0, fun m hm => absurd hm (by omega)⟩
          · rintro ⟨h1, h2⟩
            rcases Nat.eq_zero_or_pos n with hz | hp
            · subst hz; simp [idxOf?, h0]
            · have := h2 0 hp
              rw [List.drop_zero, h0] at this
              cases this
      | false =>
          have hstep : idxOf? needle (b :: hs) = (idxOf? needle hs).map (fun k => k + 1) := by
            simp [idxOf?, h0]
          constructor
          · intro h
            rw [hstep] at h
            rcases Option.map_eq_some'.mp h with ⟨k, hk, hkn⟩
            subst hkn
            obtain ⟨hk1, hk2⟩ := (ih k).mp hk
            refine ⟨by simpa [List.drop_succ_cons] using hk1, ?_⟩
            intro m hm
            cases m with
            | zero => simpa using h0
            | succ m' =>
                have : m' < k := by omega
                simpa [List.drop_succ_cons] using hk2 m' this
          · rintro ⟨h1, h2⟩
            cases n with
            | zero =>
                rw [List.drop_zero, h0] at h1
                cases h1
            | succ n' =>
                have e : idxOf? needle hs = some n' := by
                  apply (ih n').mpr
                  refine ⟨by simpa [List.drop_succ_cons] using h1, ?_⟩
                  intro m' hm'
                  have := h2 (m' + 1) (by omega)
                  simpa [List.drop_succ_cons] using this
                rw [hstep, e]
                rfl

theorem jsIncludes_some (hay needle : Str) (h : jsIncludes hay needle = true) :
    ∃ i, idxOf? needle hay = some i := by
  unfold jsIncludes at h
  exact Option.isSome_iff_exists.mp h

/-! Claims C1 and C10: the directive extractor's marker handling. -/

/-- C1, counterexample: in the payload `]ACT[CLOSE]` the first `]` of the
whole payload precedes the opening marker, so `parseRequest` slices an
empty action-list text and returns the empty directive, while the claim's
own reading (first `]` after the opening marker) designates `CLOSE` and
would yield a one-action directive. -/
theorem C1_counterexample :
    claimActText (chars ("]ACT[CLOSE]")) = some (chars ("CLOSE")) ∧
    actText (chars ("]ACT[CLOSE]")) = [] ∧
    parseRequest (chars ("]ACT[CLOSE]")) = some [] ∧
    ¬ parseRequest (chars ("]ACT[CLOSE]")) = some [⟨chars ("CLOSE"), none⟩] := by
  decide

/-- C1, amended: `parseRequest` takes as the action-list text the substring
between the end of the first `ACT[` and the first `]` anywhere in the
payload.  When that first `]` sits at or after the end of the opening
marker the result agrees with the claim's text (the first `]` after the
marker); when it precedes the opening marker the slice is empty and the
payload parses as the empty directive. -/
theorem C1_amended (request : Str)
    (ho : jsIncludes request ACT_SIGN_OPEN = true)
    (hc : jsIncludes request ACT_SIGN_CLOSE = true) :
    ((idxOf? ACT_SIGN_OPEN request).getD 0 + ACT_SIGN_OPEN.length ≤
        (idxOf? ACT_SIGN_CLOSE request).getD 0 →
      claimActText request = some (actText request)) ∧
    ((idxOf? ACT_SIGN_CLOSE request).getD 0 <
        (idxOf? ACT_SIGN_OPEN request).getD 0 + ACT_SIGN_OPEN.length →
      actText request = []) := by
  obtain ⟨i, hi⟩ := jsIncludes_some request ACT_SIGN_OPEN ho
  obtain ⟨j, hj⟩ := jsIncludes_some request ACT_SIGN_CLOSE hc
  rw [hi, hj]
  simp only [Option.getD_some]
  constructor
  · intro hle
    obtain ⟨hj1, hj2⟩ := (idxOf?_eq_some_iff ACT_SIGN_CLOSE request j).mp hj
    have key : idxOf? ACT_SIGN_CLOSE (request.drop (i + ACT_SIGN_OPEN.length)) =
        some (j - (i + ACT_SIGN_OPEN.length)) := by
      apply (idxOf?_eq_some_iff _ _ _).mpr
      constructor
      · have e : (request.drop (i + ACT_SIGN_OPEN.length)).drop (j - (i + ACT_SIGN_OPEN.length)) =
            request.drop j := by
          rw [List.drop_drop]
          congr 1
          omega
        rw [e]
        exact hj1
      · intro m hm
        rw [List.drop_drop]
        exact hj2 _ (by omega)
    unfold claimActText
    simp only [hi, key]
    unfold actText jsSlice
    rw [hi, hj]
    simp only [Option.getD_some]
    rw [List.drop_take]
  · intro hlt
    unfold actText jsSlice
    rw [hi, hj]
    simp only [Option.getD_some]
    have hlen : (request.take j).length ≤ i + ACT_SIGN_OPEN.length := by
      have := List.length_take_le j request
      omega
    exact List.drop_eq_nil_of_le hlen

/-- C1, witness for the amended theorem at the payload `zACT[CLOSE]`. -/
theorem C1_amended_witness :
    claimActText (chars ("zACT[CLOSE]")) = some (actText (chars ("zACT[CLOSE]"))) :=
  (C1_amended (chars ("zACT[CLOSE]")) (by decide) (by decide)).1 (by decide)

/-- C10: a payload missing either marker — the empty payload included —
parses to `undefined` (`none`), never to a directive, empty or otherwise
(and the embedded extractor is a total function: it cannot throw). -/
theorem C10_no_markers (request : Str)
    (h : jsIncludes request ACT_SIGN_OPEN = false ∨ jsIncludes request ACT_SIGN_CLOSE = false) :
    parseRequest request = none := by
  unfold parseRequest
  rcases h with h | h <;> simp [h]

/-- C10, witness: a markerless payload and the empty payload. -/
theorem C10_no_markers_witness :
    jsIncludes (chars ("GET / HTTP/1.1")) ACT_SIGN_OPEN = false ∧
    parseRequest (chars ("GET / HTTP/1.1")) = none ∧
    parseRequest (chars ("")) = none :=
  ⟨by decide, C10_no_markers (chars ("GET / HTTP/1.1")) (Or.inl (by decide)),
    C10_no_markers (chars ("")) (Or.inl (by decide))⟩

/-! Claim C2: the per-token split on the first equality sign. -/

theorem splitOnCh_ne_nil (c : Char) (s : Str) : splitOnCh c s ≠ [] := by
  cases s with
  | nil => simp [splitOnCh]
  | cons a rest => by_cases h : a = c <;> simp [splitOnCh, h]

theorem splitOnCh_headI (c : Char) (s : Str) :
    (splitOnCh c s).headI = s.takeWhile (fun a => a != c) := by
  induction s with
  | nil => rfl
  | cons a rest ih =>
      by_cases h : a = c
      · subst h
        simp [splitOnCh, List.takeWhile_cons]
      · simp [splitOnCh, h, List.takeWhile_cons, ih]

theorem getElem?_zero_of_ne_nil (l : List Str) (h : l ≠ []) : l[0]? = some l.headI := by
  cases l with
  | nil => exact absurd rfl h
  | cons a t => simp [List.headI]

theorem tail_getElem?_zero (l : List Str) : l.tail[0]? = l[1]? := by
  cases l <;> simp

theorem splitOnCh_get1 (c : Char) (s : Str) :
    (splitOnCh c s)[1]? =
      if s.contains c then
        some (((s.dropWhile (fun a => a != c)).tail).takeWhile (fun a => a != c))
      else none := by
  induction s with
  | nil => rfl
  | cons a rest ih =>
      by_cases h : a = c
      · subst h
        rw [show splitOnCh a (a :: rest) = [] :: splitOnCh a rest from by simp [splitOnCh]]
        rw [List.getElem?_cons_succ, getElem?_zero_of_ne_nil _ (splitOnCh_ne_nil a rest)]
        rw [splitOnCh_headI]
        simp [List.dropWhile_cons]
      · rw [show splitOnCh c (a :: rest) =
            (a :: (splitOnCh c rest).headI) :: (splitOnCh c rest).tail from by simp [splitOnCh, h]]
        rw [List.getElem?_cons_succ, tail_getElem?_zero, ih]
        have h' : ¬ c = a := fun e => h e.symm
        simp [List.dropWhile_cons, h, h']

/-- C2, counterexample: the token `SEND=a=b` gets parameter `a` (the chunk
between the first and second `=`), not the full remainder `a=b` demanded by
the claim. -/
theorem C2_counterexample :
    parseRequest (chars ("ACT[SEND=a=b]")) = some [⟨chars ("SEND"), some (chars ("a"))⟩] ∧
    ¬ parseRequest (chars ("ACT[SEND=a=b]")) = some [⟨chars ("SEND"), some (chars ("a=b"))⟩] := by
  decide

/-- C2, amended: a token's kind is the text before the first `=`; the
parameter is `undefined` (`none`) — not the empty string — exactly when the
token contains no `=`; and when a `=` is present the parameter is the chunk
strictly between the first `=` and the next `=` or the end of the token
(JS `split('=')[1]`), not the entire remainder. -/
theorem C2_amended (item : Str) :
    (parseToken item).cmd = item.takeWhile (fun a => a != '=') ∧
    ((parseToken item).param = none ↔ item.contains '=' = false) ∧
    (item.contains '=' = true →
      (parseToken item).param =
        some (((item.dropWhile (fun a => a != '=')).tail).takeWhile (fun a => a != '='))) := by
  refine ⟨splitOnCh_headI '=' item, ?_, ?_⟩
  · rw [show (parseToken item).param = (splitOnCh '=' item)[1]? from rfl, splitOnCh_get1]
    by_cases h : item.contains '=' = true <;> simp [h]
  · intro h
    rw [show (parseToken item).param = (splitOnCh '=' item)[1]? from rfl, splitOnCh_get1, if_pos h]

/-- C2, witness for the amended theorem at the token `SEND=a=b`. -/
theorem C2_amended_witness :
    (parseToken (chars ("SEND=a=b"))).param =
      some ((((chars ("SEND=a=b")).dropWhile (fun a => a != '=')).tail).takeWhile
        (fun a => a != '=')) :=
  (C2_amended (chars ("SEND=a=b"))).2.2 (by decide)

/-! Claims C3, C4 and C7: the action executor. -/

theorem execFrom_all_ok (actions : List Action) : ∀ i : Nat,
    (∀ a ∈ actions, knownCmds.contains a.cmd = true) →
    execFrom (fun _ => true) i actions = (handlerTrace actions, Outcome.done) := by
  induction actions with
  | nil => intro i _; rfl
  | cons a rest ih =>
      intro i h
      have ha : methodMapTruthy a.cmd = true := by
        unfold methodMapTruthy
        rw [h a (List.mem_cons_self a rest), Bool.true_or]
      simp [execFrom, ha, handlerTrace, ih (i + 1) (fun x hx => h x (List.mem_cons_of_mem a hx))]

theorem endSocket_not_mem_handlerTrace (actions : List Action) :
    ¬ Event.endSocket ∈ handlerTrace actions := by
  induction actions with
  | nil => simp [handlerTrace]
  | cons a rest ih => simp [handlerTrace, ih]

/-- C3, behavior at the failing input: for the directive parsed from
`ACT[toString,CLOSE]`, the guard `!METHOD_MAP[item.cmd]` is false because
`toString` is inherited from `Object.prototype`, so `execActions` logs
`Executing action toString`, invokes the inherited method as a handler and
carries on with the following action — no unknown-action error, no
`socket.end()`, no abort.  By contrast a kind outside the prototype chain,
such as `FOO`, does take the error path the claim describes. -/
theorem C3_protoLookup :
    execActions (fun _ => true) [⟨chars ("toString"), none⟩, ⟨chars ("CLOSE"), none⟩] =
      ([Event.logExec (chars ("toString")) none, Event.invoke (chars ("toString")) none,
        Event.logExec (chars ("CLOSE")) none, Event.invoke (chars ("CLOSE")) none],
        Outcome.done) ∧
    execActions (fun _ => true) [⟨chars ("FOO"), none⟩, ⟨chars ("CLOSE"), none⟩] =
      ([Event.logUnknown (chars ("FOO")), Event.endSocket], Outcome.done) := by
  decide

/-- C4, behavior at the failing input: when a known action's handler fails
mid-sequence (here the second of three actions), execution does stop with
no subsequent action executed — but `execActions` finishes with a rejected
promise (`Outcome.raised`), and both call sites in the connection handler
invoke `execActions` without `await` or `.catch`, so the rejection leaves
Session scope instead of being handled there. -/
theorem C4_rejectionEscapes :
    execActions (fun i => i == 0)
        [⟨chars ("CLOSE"), none⟩, ⟨chars ("SEND"), some (chars ("hi"))⟩,
          ⟨chars ("SEND"), some (chars ("bye"))⟩] =
      ([Event.logExec (chars ("CLOSE")) none, Event.invoke (chars ("CLOSE")) none,
        Event.logExec (chars ("SEND")) (some (chars ("hi"))),
        Event.invoke (chars ("SEND")) (some (chars ("hi")))],
        Outcome.raised) := by
  decide

/-- C7: a directive of known actions whose handlers all complete resolves
normally with exactly the per-action log and handler events, in order — the
executor itself never emits `socket.end()` (or any other socket effect), so
the stream is left exactly as the last action's handler left it, and a
directive not ending in CLOSE leaves the connection open. -/
theorem C7_no_implicit_close (actions : List Action)
    (h : ∀ a ∈ actions, knownCmds.contains a.cmd = true) :
    execActions (fun _ => true) actions =
      ((if actions.length = 0 then [Event.logNoActions] else handlerTrace actions),
        Outcome.done) ∧
    ¬ Event.endSocket ∈ (execActions (fun _ => true) actions).1 := by
  cases actions with
  | nil => refine ⟨rfl, by simp [execActions]⟩
  | cons a rest =>
      have hrun := execFrom_all_ok (a :: rest) 0 h
      constructor
      · simpa [execActions] using hrun
      · rw [show (execActions (fun _ => true) (a :: rest)).1 =
            (execFrom (fun _ => true) 0 (a :: rest)).1 from by simp [execActions]]
        rw [hrun]
        exact endSocket_not_mem_handlerTrace (a :: rest)

/-- C7, witness at the directive `SEND=ok,CLOSE`. -/
theorem C7_no_implicit_close_witness :
    execActions (fun _ => true)
        [⟨chars ("SEND"), some (chars ("ok"))⟩, ⟨chars ("CLOSE"), none⟩] =
      ((if ([⟨chars ("SEND"), some (chars ("ok"))⟩,
            ⟨chars ("CLOSE"), none⟩] : List Action).length = 0 then [Event.logNoActions]
        else handlerTrace [⟨chars ("SEND"), some (chars ("ok"))⟩, ⟨chars ("CLOSE"), none⟩]),
        Outcome.done) ∧
    ¬ Event.endSocket ∈
        (execActions (fun _ => true)
          [⟨chars ("SEND"), some (chars ("ok"))⟩, ⟨chars ("CLOSE"), none⟩]).1 :=
  C7_no_implicit_close _ (by decide)

/-! Claims C5 and C6: the SEND handler. -/

theorem hexDigitUpper_ne_u : ∀ x, x < 16 → ¬ hexDigitUpper x = 'u' := by decide

theorem isHexDigit_hexDigitUpper : ∀ x, x < 16 → isHexDigit (hexDigitUpper x) = true := by decide

theorem hexVal_hexDigitUpper : ∀ x, x < 16 → hexVal (hexDigitUpper x) = x := by decide

theorem utf8EncodeChar_ofNat : ∀ b, b < 256 → utf8EncodeChar (Char.ofNat b) = utf8ByteEnc b := by
  decide

theorem unescapeFuel_hex2 (f : Nat) (h1 h2 : Char) (t : Str) (hu : ¬ h1 = 'u')
    (hh1 : isHexDigit h1 = true) (hh2 : isHexDigit h2 = true) :
    unescapeFuel (f + 1) ('%' :: h1 :: h2 :: t) =
      Char.ofNat (hexVal h1 * 16 + hexVal h2) :: unescapeFuel f t := by
  simp [unescapeFuel, hu, hh1, hh2]

theorem unescapeFuel_percentEnc (l : List Nat) :
    (∀ b ∈ l, b < 256) → ∀ fuel, (percentEnc l).length ≤ fuel →
      unescapeFuel fuel (percentEnc l) = l.map (fun b => Char.ofNat b) := by
  induction l with
  | nil =>
      intro _ fuel _
      cases fuel <;> rfl
  | cons b rest ih =>
      intro hl fuel hfuel
      have hb : b < 256 := hl b (List.mem_cons_self b rest)
      have hdiv : b / 16 < 16 := by omega
      have hmod : b % 16 < 16 := by omega
      rw [show percentEnc (b :: rest) =
          '%' :: hexDigitUpper (b / 16) :: hexDigitUpper (b % 16) :: percentEnc rest from rfl]
        at hfuel ⊢
      cases fuel with
      | zero => simp at hfuel
      | succ f =>
          rw [unescapeFuel_hex2 f _ _ _ (hexDigitUpper_ne_u _ hdiv)
            (isHexDigit_hexDigitUpper _ hdiv) (isHexDigit_hexDigitUpper _ hmod)]
          rw [hexVal_hexDigitUpper _ hdiv, hexVal_hexDigitUpper _ hmod,
            show b / 16 * 16 + b % 16 = b from by omega]
          rw [ih (fun x hx => hl x (List.mem_cons_of_mem b hx)) f (by simp at hfuel ⊢; omega)]
          rfl

theorem utf8Encode_map_ofNat (l : List Nat) (h : ∀ b ∈ l, b < 256) :
    utf8Encode (l.map (fun b => Char.ofNat b)) = bytesUtf8 l := by
  induction l with
  | nil => rfl
  | cons b rest ih =>
      have hb : b < 256 := h b (List.mem_cons_self b rest)
      rw [List.map_cons, show utf8Encode (Char.ofNat b :: rest.map (fun b => Char.ofNat b)) =
          utf8EncodeChar (Char.ofNat b) ++ utf8Encode (rest.map (fun b => Char.ofNat b)) from rfl]
      rw [utf8EncodeChar_ofNat b hb, ih (fun x hx => h x (List.mem_cons_of_mem b hx))]
      rfl

/-- C5, behavior at the failing input: for a SEND token without `=` the
parameter is `undefined`, and `act_send` passes it straight through to
`socket.write` — the chunk it writes is the JS value `undefined` (`none`),
not an empty write and not a skipped call (only the empty-string parameter
produces an empty chunk).  Node's stream API raises `ERR_INVALID_ARG_TYPE`
for an `undefined` chunk, so the handler does not complete successfully. -/
theorem C5_undefined_chunk :
    act_send_chunk none = none ∧
    ¬ act_send_chunk none = some [] ∧
    act_send_chunk (some []) = some [] := by
  decide

/-- C6, counterexample: `%FF` decodes (via JS `unescape`) to the character
`U+00FF`, which `socket.write` UTF-8 encodes as the two bytes `0xC3 0xBF`,
not the single byte `0xFF` stated by the claim; the claim's other example
`%0D%0A` does give the bytes `0x0D 0x0A` because both are below `0x80`. -/
theorem C6_counterexample :
    sendBytes (chars ("%FF")) = [0xC3, 0xBF] ∧
    ¬ sendBytes (chars ("%FF")) = [0xFF] ∧
    sendBytes (chars ("%0D%0A")) = [0x0D, 0x0A] := by
  decide

/-- C6, amended: for a parameter percent-encoding a byte sequence, each
`%XX` becomes the character `U+00XX` and the written bytes are that
string's UTF-8 encoding: the single byte `0xXX` when `XX < 0x80`, and the
two bytes `0xC0+XX/0x40, 0x80+XX%0x40` when `XX ≥ 0x80`. -/
theorem C6_amended (bs : List Nat) (h : ∀ b ∈ bs, b < 256) :
    sendBytes (percentEnc bs) = bytesUtf8 bs := by
  cases bs with
  | nil => rfl
  | cons b rest =>
      have hne : ¬ (percentEnc (b :: rest)).isEmpty = true := by
        simp [percentEnc]
      rw [show sendBytes (percentEnc (b :: rest)) =
          utf8Encode (unescapeJS (percentEnc (b :: rest))) from by
        simp [sendBytes, act_send_chunk, hne]]
      rw [show unescapeJS (percentEnc (b :: rest)) =
          unescapeFuel (percentEnc (b :: rest)).length (percentEnc (b :: rest)) from rfl]
      rw [unescapeFuel_percentEnc (b :: rest) h (percentEnc (b :: rest)).length (le_refl _)]
      exact utf8Encode_map_ofNat (b :: rest) h

/-- C6, witness for the amended theorem at the bytes `0xFF 0x0D`
(parameter `%FF%0D`). -/
theorem C6_amended_witness :
    sendBytes (percentEnc [0xFF, 0x0D]) = bytesUtf8 [0xFF, 0x0D] :=
  C6_amended [0xFF, 0x0D] (by decide)

/-! Claims C8 and C9: the connection handler's directive dispatch. -/

theorem inboundFrom_consumed (ps : List Str) : inboundFrom true ps = [] := by
  induction ps with
  | nil => rfl
  | cons p rest ih => simp [inboundFrom, handleData, ih]

theorem handleData_false_fst (p : Str) : (handleData false p).1 = true := by
  unfold handleData
  cases h : parseRequest p <;> simp [h]

/-- C8: with a global directive configured, every session executes exactly
that directive once at connect time, whatever its inbound payloads carry —
the `else` branch installing the data handler is never taken, so inbound
bytes (marker-bearing or not) are never consulted for a directive. -/
theorem C8_global_once (g : List Action) (payloads : List Str) :
    sessionExecuted (some g) payloads = [g] ∧
    sessionExecuted (some g) payloads = sessionExecuted (some g) [] :=
  ⟨rfl, rfl⟩

/-- C9: without a global directive, at most one directive is ever executed
from a session's inbound data, and it can only come from the first payload:
once the first payload has been handled (well-formed or not — the `dataGot`
flag is set before parsing), every later payload is ignored, so the
executed directives of `p :: rest` are exactly those of `p` alone. -/
theorem C9_at_most_one :
    (∀ payloads, (sessionExecuted none payloads).length ≤ 1) ∧
    (∀ p rest, sessionExecuted none (p :: rest) = sessionExecuted none [p]) := by
  have hstep : ∀ (p : Str) (rest : List Str), inboundFrom false (p :: rest) =
      (handleData false p).2.toList ++ inboundFrom true rest := by
    intro p rest
    rw [show inboundFrom false (p :: rest) =
        (handleData false p).2.toList ++ inboundFrom (handleData false p).1 rest from rfl]
    rw [handleData_false_fst]
  constructor
  · intro payloads
    cases payloads with
    | nil => simp [sessionExecuted, inboundExecuted, inboundFrom]
    | cons p rest =>
        rw [show sessionExecuted none (p :: rest) = inboundFrom false (p :: rest) from rfl]
        rw [hstep, inboundFrom_consumed]
        cases h : (handleData false p).2 <;> simp [h]
  · intro p rest
    rw [show sessionExecuted none (p :: rest) = inboundFrom false (p :: rest) from rfl,
      show sessionExecuted none [p] = inboundFrom false [p] from rfl]
    rw [hstep, hstep, inboundFrom_consumed, inboundFrom_consumed]

end TestSrv
